import Mathlib

/-!
Verification of the immortal-streams core (agent/immortalstreams) against its
specification.  The Go sources `stream.go` and `manager.go` are shallowly
embedded below: each mutex-guarded section becomes a pure function on an
explicit state record, time is modelled as `Nat` (0 is Go's zero `time.Time`),
Go errors become an inductive `GoError`, and the concurrent parts become
explicit step relations over configurations.
-/

namespace ImmortalStreams

/-- The mutable fields of the Go `Stream` struct that are guarded by `s.mu`
(`stream.go`).  `pendingReconnect` holds the `readerSeqNum` of the pending
`reconnectRequest` when one exists. -/
structure StreamState where
  lastConnectionAt : Nat
  lastDisconnectionAt : Nat
  connected : Bool
  closed : Bool
  handshakePending : Bool
  pendingReconnect : Option Nat
  deriving Repr, DecidableEq

/-- The state of a freshly constructed stream (`NewStream`): no connection yet,
not closed, no pending handshake. -/
def newStreamState : StreamState :=
  { lastConnectionAt := 0
    lastDisconnectionAt := 0
    connected := false
    closed := false
    handshakePending := false
    pendingReconnect := none }

/-- `Stream.Start`: records the connection time and marks the stream as not
yet connected to a client.  Fails when the stream is already closed. -/
def startStream (s : StreamState) (now : Nat) : StreamState × Option String :=
  if s.closed then (s, some "stream is closed")
  else ({ s with lastConnectionAt := now, connected := false }, none)

/-- The locked section at the top of `streamReconnector.Reconnect`
(`stream.go` lines 79-111): reject a concurrent call while a request is
pending, reject after close, otherwise install the pending request, raise the
handshake flag and mark the stream disconnected (recording the timestamp when
it was previously connected). -/
def reconnectAcquire (s : StreamState) (readerSeqNum : Nat) (now : Nat) :
    StreamState × Option String :=
  if s.pendingReconnect.isSome then
    (s, some "reconnection already in progress")
  else if s.closed then
    (s, some "stream is shutting down")
  else
    ({ s with
        pendingReconnect := some readerSeqNum
        handshakePending := true
        connected := false
        lastDisconnectionAt := if s.connected then now else s.lastDisconnectionAt },
      none)

/-- The 30-second timer armed inside `streamReconnector.Reconnect`
(`time.NewTimer(30 * time.Second)`). -/
def reconnectTimeoutSeconds : Nat := 30

/-- The timeout branch of the `select` in `streamReconnector.Reconnect`
(`stream.go` lines 137-147): clear the pending request and the handshake flag
(only when the request is still pending) and return the timeout error. -/
def reconnectTimeout (s : StreamState) : StreamState × Option String :=
  (if s.pendingReconnect.isSome then
      { s with pendingReconnect := none, handshakePending := false }
    else s,
    some "timeout waiting for reconnection response")

/-- Outcome of one iteration of the coordination loop in
`Stream.HandleReconnect`. -/
inductive HandlerStep where
  | respond (respSeq : Nat)
  | closedError
  | wait
  deriving Repr, DecidableEq

/-- One iteration of the `for` loop in `Stream.HandleReconnect`
(`stream.go` lines 257-311), with the checks in source order: a pending
request is answered with this connection; a closed stream aborts; in every
other case (connected or not) the handler pokes the reconnect worker and
blocks in `s.reconnectCond.Wait()`. -/
def handleReconnectCheck (s : StreamState) (readSeqNum : Nat) : HandlerStep :=
  if s.pendingReconnect.isSome then .respond readSeqNum
  else if s.closed then .closedError
  else .wait

/-- Run the `HandleReconnect` loop for `fuel` iterations under the premise of
the claim that the pipe never issues a reconnect request: then no other
goroutine mutates the coordination state, so each `cond.Wait` wakeup re-checks
the same state.  `none` means the handler is still blocked after `fuel`
wakeups. -/
def handlerRun : Nat → StreamState → Nat → Option HandlerStep
  | 0, _, _ => none
  | fuel + 1, s, readSeqNum =>
    match handleReconnectCheck s readSeqNum with
    | .wait => handlerRun fuel s readSeqNum
    | r => some r

/-- The second locked section of `Stream.HandleReconnect` (lines 272-279),
entered after the pending request was answered: record the connection time,
mark connected, and drop the handshake flag. -/
def handleReconnectFinish (s : StreamState) (now : Nat) : StreamState :=
  { s with lastConnectionAt := now, connected := true, handshakePending := false }

/-- `Stream.Close` (`stream.go` lines 315-388) as a state transformer.
Returns the new state, the returned error, and whether the teardown path
(cancel, shutdown broadcast, pipe/conn close, goroutine join) was executed.
A second call observes `closed` and returns `nil` immediately.  Note that the
handshake flag is only cleared when a pending request existed. -/
def closeStream (s : StreamState) : StreamState × Option String × Bool :=
  if s.closed then (s, none, false)
  else
    ({ s with
        closed := true
        connected := false
        pendingReconnect := none
        handshakePending := if s.pendingReconnect.isSome then false else s.handshakePending },
      none, true)

/-- `Stream.handleDisconnect` (`stream.go` lines 529-538): only acts when the
stream is currently connected. -/
def handleDisconnect (s : StreamState) (now : Nat) : StreamState :=
  if s.connected then { s with connected := false, lastDisconnectionAt := now }
  else s

/-- The immutable identity of a Go `Stream` together with its guarded state. -/
structure Stream where
  id : Nat
  name : String
  port : Int
  createdAt : Nat
  st : StreamState
  deriving Repr, DecidableEq

/-- `codersdk.ImmortalStream`, the public view record.  `lastDisconnectionAt`
is a nullable field (`*time.Time`). -/
structure ImmortalStream where
  id : Nat
  name : String
  tcpPort : Int
  createdAt : Nat
  lastConnectionAt : Nat
  lastDisconnectionAt : Option Nat
  deriving Repr, DecidableEq

/-- `Stream.ToAPI` (`stream.go` lines 405-422): the last-disconnection time is
exposed only when the stream is not connected and the recorded time is not the
zero time. -/
def toAPI (s : Stream) : ImmortalStream :=
  { id := s.id
    name := s.name
    tcpPort := s.port
    createdAt := s.createdAt
    lastConnectionAt := s.st.lastConnectionAt
    lastDisconnectionAt :=
      if s.st.connected = false ∧ s.st.lastDisconnectionAt ≠ 0 then
        some s.st.lastDisconnectionAt
      else none }

/-! ### Go errors and `isConnectionRefused` (`manager.go` lines 233-255) -/

/-- Shallow model of Go error values as they appear on the dial path:
`errno n msg` is a `syscall.Errno` (with its platform message text),
`opError op inner` is a `net.OpError` with operation `op` wrapping `inner`,
`str` is a plain error, and `wrap msg inner` is `fmt.Errorf("msg: %w", inner)`.
-/
inductive GoError where
  | errno (n : Int) (msg : String)
  | opError (op : String) (inner : GoError)
  | str (msg : String)
  | wrap (msg : String) (inner : GoError)
  deriving Repr, DecidableEq

/-- `syscall.ECONNREFUSED` (Linux value). -/
def ECONNREFUSED : Int := 111

/-- `errors.As(err, &errno)`: walk the `Unwrap` chain looking for a
`syscall.Errno`.  `net.OpError` and wrapped errors unwrap to their inner
error; an `Errno` terminates the chain. -/
def asErrno : GoError → Option Int
  | .errno n _ => some n
  | .opError _ inner => asErrno inner
  | .wrap _ inner => asErrno inner
  | .str _ => none

/-- `errors.As(err, &opErr)` for `*net.OpError`: the first `OpError` found on
the `Unwrap` chain, as its operation plus inner error. -/
def asOpError : GoError → Option (String × GoError)
  | .errno _ _ => none
  | .opError op inner => some (op, inner)
  | .wrap _ inner => asOpError inner
  | .str _ => none

/-- `err.Error()`: the rendered message text. -/
def message : GoError → String
  | .errno _ msg => msg
  | .opError op inner => op ++ ": " ++ message inner
  | .str msg => msg
  | .wrap msg inner => msg ++ ": " ++ message inner

/-- Whether `pat` is a prefix of `l` (character lists). -/
def isPrefixList : List Char → List Char → Bool
  | [], _ => true
  | _ :: _, [] => false
  | a :: as, b :: bs => a == b && isPrefixList as bs

/-- Whether `pat` occurs as a contiguous run inside `l`. -/
def isInfixList (pat : List Char) : List Char → Bool
  | [] => isPrefixList pat []
  | b :: bs => isPrefixList pat (b :: bs) || isInfixList pat bs

/-- `strings.Contains(s, pat)`. -/
def strContains (s pat : String) : Bool := isInfixList pat.toList s.toList

/-- First refused-connection message pattern checked by the fallback. -/
def refusedPattern1 : String := "connection refused"

/-- Second (Windows `connectex`) pattern. -/
def refusedPattern2 : String :=
  "connectex: No connection could be made because the target machine actively refused it"

/-- Third, generic cross-platform pattern. -/
def refusedPattern3 : String := "actively refused"

/-- `isConnectionRefused` (`manager.go` lines 233-255): a `syscall.Errno`
equal to `ECONNREFUSED` anywhere on the unwrap chain; or a `net.OpError` with
operation `"dial"` whose inner error unwraps to `ECONNREFUSED`; or, as a
cross-platform fallback, one of three refused-connection substrings in the
rendered message. -/
def isConnectionRefused (err : GoError) : Bool :=
  if asErrno err == some ECONNREFUSED then true
  else if (match asOpError err with
            | some (op, inner) => op == "dial" && asErrno inner == some ECONNREFUSED
            | none => false) then true
  else
    strContains (message err) refusedPattern1 ||
    strContains (message err) refusedPattern2 ||
    strContains (message err) refusedPattern3

/-! ### Manager (`manager.go`) -/

/-- `MaxStreams` (`manager.go` line 32). -/
def MaxStreams : Nat := 32

/-- The manager registry `map[uuid.UUID]*Stream`, embedded as an association
list whose order is the map's iteration order.  Keys are stream ids. -/
structure Manager where
  streams : List (Nat × StreamState)
  deriving Repr, DecidableEq

/-- `New`: an empty registry. -/
def emptyManager : Manager := ⟨[]⟩

/-- The scan loop of `Manager.evictOldestDisconnectedLocked`
(`manager.go` lines 169-197).  `acc` is the `(oldestID, oldestDisconnected)`
pair once `found` is true.  Connected streams are skipped; a zero timestamp
never displaces a non-zero one; a non-zero timestamp displaces a zero one;
between two non-zero timestamps the strictly earlier one wins; between two
zero timestamps the first one found is kept. -/
def evictChoose : Option (Nat × Nat) → Nat → Nat → Option (Nat × Nat)
  | none, id, d => some (id, d)
  | some (oid, od), id, d =>
    if d = 0 ∧ od ≠ 0 then some (oid, od)
    else if d ≠ 0 ∧ od = 0 then some (id, d)
    else if d ≠ 0 ∧ od ≠ 0 then
      if d < od then some (id, d) else some (oid, od)
    else some (oid, od)

/-- The loop of `evictOldestDisconnectedLocked`: skip connected streams and
merge each disconnected candidate into the running choice. -/
def evictFold (acc : Option (Nat × Nat)) : List (Nat × StreamState) → Option (Nat × Nat)
  | [] => acc
  | (id, st) :: rest =>
    if st.connected then evictFold acc rest
    else evictFold (evictChoose acc id st.lastDisconnectionAt) rest

/-- `Manager.evictOldestDisconnectedLocked`: run the scan and, when a victim
was found, close it and delete it from the registry.  Returns whether an
eviction happened. -/
def evictOldestDisconnected (m : Manager) : Bool × Manager :=
  match evictFold none m.streams with
  | none => (false, m)
  | some (oid, _) => (true, ⟨m.streams.filter (fun e => e.1 != oid)⟩)

/-- Result of `Manager.CreateStream`.  `dialError` carries the wrapped dial
error (`xerrors.Errorf("dial local service: %w", err)`). -/
inductive CreateResult where
  | ok (id : Nat)
  | tooManyStreams
  | connRefused
  | dialError (e : GoError)
  deriving Repr, DecidableEq

/-- The dial-and-register tail of `Manager.CreateStream` (`manager.go` lines
74-105).  The dial outcome is passed in as a parameter (the `Dialer` is an
external collaborator); `newId` stands for the fresh `uuid.New()` and `now`
for the `Start` time.  A dial failure is classified by `isConnectionRefused`;
on success the started stream is registered.  (`stream.Start` on a freshly
constructed stream cannot fail: the new stream is not closed.) -/
def createDialAndRegister (m1 : Manager) (dialResult : Except GoError Unit)
    (newId now : Nat) : Manager × CreateResult :=
  match dialResult with
  | .error e =>
    if isConnectionRefused e then (m1, .connRefused)
    else (m1, .dialError (.wrap "dial local service" e))
  | .ok _ =>
    (⟨m1.streams ++ [(newId, (startStream newStreamState now).1)]⟩, .ok newId)

/-- The capacity block at the top of `Manager.CreateStream`: at or above
`MaxStreams` one eviction of a disconnected stream is attempted; if none is
possible the call fails with the too-many-streams error, otherwise the dial
proceeds on the shrunken registry. -/
def createStream (m : Manager) (dialResult : Except GoError Unit) (newId : Nat)
    (now : Nat) : Manager × CreateResult :=
  if MaxStreams ≤ m.streams.length then
    match evictOldestDisconnected m with
    | (false, _) => (m, .tooManyStreams)
    | (true, m') => createDialAndRegister m' dialResult newId now
  else createDialAndRegister m dialResult newId now

/-- `Manager.DeleteStream`: close and remove the stream, or report the
stream-not-found error. -/
def deleteStream (m : Manager) (id : Nat) : Manager × Option String :=
  if m.streams.any (fun e => e.1 == id) then
    (⟨m.streams.filter (fun e => e.1 != id)⟩, none)
  else (m, some "stream not found")

/-- `Manager.Close`: closes every stream and empties the registry. -/
def closeAllStreams (_m : Manager) : Manager := ⟨[]⟩

/-- Apply a per-stream state transformer to one registry entry (the Go code
mutates the `*Stream` in place under the stream's own mutex). -/
def updateStream (m : Manager) (id : Nat) (f : StreamState → StreamState) : Manager :=
  ⟨m.streams.map (fun e => if e.1 == id then (e.1, f e.2) else e)⟩

/-- The operations that can touch the registry or a registered stream's
connected/closed state over the manager's lifetime. -/
inductive ManagerOp where
  | create (dialResult : Except GoError Unit) (newId : Nat) (now : Nat)
  | delete (id : Nat)
  | closeAll
  | disconnect (id : Nat) (now : Nat)
  | clientConnect (id : Nat) (now : Nat)
  | reconnectBegin (id : Nat) (seq : Nat) (now : Nat)
  | reconnectTimedOut (id : Nat)
  | closeOne (id : Nat)

/-- Interpret one `ManagerOp`. -/
def applyOp (m : Manager) : ManagerOp → Manager
  | .create d nid now => (createStream m d nid now).1
  | .delete id => (deleteStream m id).1
  | .closeAll => closeAllStreams m
  | .disconnect id now => updateStream m id (fun st => handleDisconnect st now)
  | .clientConnect id now => updateStream m id (fun st => handleReconnectFinish st now)
  | .reconnectBegin id seq now => updateStream m id (fun st => (reconnectAcquire st seq now).1)
  | .reconnectTimedOut id => updateStream m id (fun st => (reconnectTimeout st).1)
  | .closeOne id => updateStream m id (fun st => (closeStream st).1)

/-! ### Interleaving model of one stream's reconnect coordination

The concurrent actors of `stream.go` around one `Stream`: the reconnect
worker goroutine started by `NewStream` (the only caller of
`pipe.ForceReconnect` in the sources; the `BackedPipe` serializes reconnector
invocations, per its single-flight contract), the pipe-side
`streamReconnector.Reconnect` call it triggers, `HandleReconnect` handlers,
the timeout branch, `Close`, and the disconnect handler.  Each step is one
mutex-guarded section of the source. -/

/-- A configuration: the guarded stream state, the number of handlers that
have answered a pending request (first locked section of `HandleReconnect`)
but not yet executed its second locked section, and whether the worker has
passed its eligibility check and is about to invoke
`streamReconnector.Reconnect`. -/
structure StreamConfig where
  st : StreamState
  phase2 : Nat
  workerArmed : Bool
  deriving Repr, DecidableEq

/-- The configuration of a freshly created stream. -/
def initStreamConfig : StreamConfig :=
  { st := newStreamState, phase2 := 0, workerArmed := false }

/-- One atomic step of the system.  `pd` in `workerGate` is the pipe's
`Connected()` snapshot (the pipe itself is not modelled); the gate is the
eligibility check of the reconnect worker (`stream.go` lines 188-199). -/
inductive StreamStep : StreamConfig → StreamConfig → Prop where
  | workerGate (c : StreamConfig) (pd : Bool) :
      c.workerArmed = false →
      c.st.closed = false →
      c.st.handshakePending = false →
      (c.st.connected = false ∨ pd = true) →
      StreamStep c { c with workerArmed := true }
  | reconnectCall (c : StreamConfig) (seq now : Nat) :
      c.workerArmed = true →
      StreamStep c { c with workerArmed := false
                            st := (reconnectAcquire c.st seq now).1 }
  | handlerRespond (c : StreamConfig) :
      c.st.pendingReconnect.isSome →
      StreamStep c { c with st := { c.st with pendingReconnect := none }
                            phase2 := c.phase2 + 1 }
  | handlerFinish (c : StreamConfig) (now : Nat) :
      0 < c.phase2 →
      StreamStep c { c with st := handleReconnectFinish c.st now
                            phase2 := c.phase2 - 1 }
  | timeoutFire (c : StreamConfig) :
      StreamStep c { c with st := (reconnectTimeout c.st).1 }
  | closeCall (c : StreamConfig) :
      StreamStep c { c with st := (closeStream c.st).1 }
  | disconnectSignal (c : StreamConfig) (now : Nat) :
      StreamStep c { c with st := handleDisconnect c.st now }
  | startCall (c : StreamConfig) (now : Nat) :
      StreamStep c { c with st := (startStream c.st now).1 }

/-- Reflexive-transitive closure of `StreamStep`. -/
inductive StreamReach : StreamConfig → StreamConfig → Prop where
  | refl (c : StreamConfig) : StreamReach c c
  | tail (a b c : StreamConfig) : StreamReach a b → StreamStep b c → StreamReach a c

/-- A configuration reachable from the fresh stream. -/
def StreamReachable (c : StreamConfig) : Prop := StreamReach initStreamConfig c

/-- The inductive invariant: the claimed property (a pending request implies
handshake-pending and not-connected) together with the auxiliary facts that
make it inductive. -/
def StreamInv (c : StreamConfig) : Prop :=
  (c.st.pendingReconnect.isSome → c.st.handshakePending = true ∧ c.st.connected = false)
  ∧ (c.workerArmed = true →
      c.st.handshakePending = false ∧ c.st.pendingReconnect = none ∧ c.phase2 = 0)
  ∧ (0 < c.phase2 →
      c.st.pendingReconnect = none ∧ (c.st.handshakePending = true ∨ c.st.closed = true))
  ∧ c.phase2 ≤ 1

/-! ### BackedPipe replay (modelled from the spec)

The `backedpipe` package itself is not among the sources (only its callers
are), so the pipe is modelled from the specification. -/

/-- Modelled from the spec: the `BackedPipe` state of the missing
`agent/immortalstreams/backedpipe` package — "a byte-oriented conduit with
monotonically increasing write/read sequence counters" and "an internal
retained-write buffer sized to support replay after reconnect".  `written` is
the retained log of every byte written (its length is the write-sequence
counter); `transport` is the current transport's delivered byte log, `none`
while disconnected. -/
structure BackedPipe where
  written : List Nat
  transport : Option (List Nat)
  deriving Repr, DecidableEq

/-- A fresh pipe with no transport attached. -/
def newBackedPipe : BackedPipe := { written := [], transport := none }

/-- Events driving the pipe: a producer write, a transport drop, and a
reconnect in which the Reconnector reports the peer-acknowledged offset `k`. -/
inductive PipeEvent where
  | write (bs : List Nat)
  | drop
  | reconnect (k : Nat)
  deriving Repr, DecidableEq

/-- Modelled from the spec: one event of the missing `BackedPipe`.  A write
appends to the retained log and is forwarded to the current transport when
one is attached; a drop detaches the transport; a reconnect reporting
peer-acknowledged offset `k` attaches a new transport and "replays, from its
retained buffer, exactly the suffix of previously written bytes starting at
that reported offset". -/
def pipeStep (p : BackedPipe) : PipeEvent → BackedPipe
  | .write bs => { written := p.written ++ bs, transport := p.transport.map (· ++ bs) }
  | .drop => { p with transport := none }
  | .reconnect k => { p with transport := some (p.written.drop k) }

/-- Run a list of events. -/
def pipeRun (p : BackedPipe) (evs : List PipeEvent) : BackedPipe :=
  evs.foldl pipeStep p

/-! ### Single-flight `ForceReconnect` (modelled from the spec)

`BackedPipe.ForceReconnect` is also part of the missing `backedpipe`
package; its single-flight behaviour is modelled from the specification:
"triggers (or joins, if already in flight) exactly one reconnect attempt". -/

/-- The program counter of one `forceReconnect` caller: not yet entered;
leading (it started the attempt and is the one invoking the Reconnector);
joining (it found an attempt in flight and waits for its result); done with
the attempt's result (`none` = success, `some e` = the attempt's error). -/
inductive CallerPC where
  | start
  | leading
  | joining
  | done (r : Option String)
  deriving Repr, DecidableEq

/-- Modelled from the spec: a single-flight configuration — whether a
reconnect attempt (one Reconnector invocation) is in flight, plus the callers'
program counters. -/
structure SFConfig where
  inFlight : Bool
  callers : List CallerPC
  deriving Repr, DecidableEq

/-- N callers about to invoke `forceReconnect` on a disconnected pipe. -/
def sfInit (n : Nat) : SFConfig := { inFlight := false, callers := List.replicate n .start }

/-- When the in-flight attempt completes with result `r`, every caller that
joined it is released with the same result. -/
def settleJoiner (r : Option String) : CallerPC → CallerPC
  | .joining => .done r
  | pc => pc

/-- Modelled from the spec: the single-flight step relation.  A caller that
finds no attempt in flight starts one and becomes the single Reconnector
invoker; a caller that finds one in flight joins it; when the leader's
invocation returns, the leader and all joiners complete with the same
result. -/
inductive SFStep : SFConfig → SFConfig → Prop where
  | lead (pre post : List CallerPC) :
      SFStep ⟨false, pre ++ .start :: post⟩ ⟨true, pre ++ .leading :: post⟩
  | join (pre post : List CallerPC) :
      SFStep ⟨true, pre ++ .start :: post⟩ ⟨true, pre ++ .joining :: post⟩
  | finish (pre post : List CallerPC) (r : Option String) :
      SFStep ⟨true, pre ++ .leading :: post⟩
             ⟨false, pre.map (settleJoiner r) ++ .done r :: post.map (settleJoiner r)⟩

/-- Reachability from a configuration. -/
inductive SFReach : SFConfig → SFConfig → Prop where
  | refl (c : SFConfig) : SFReach c c
  | tail (a b c : SFConfig) : SFReach a b → SFStep b c → SFReach a c

/-- The number of callers currently invoking the Reconnector. -/
def leadCount (c : SFConfig) : Nat := c.callers.countP (fun pc => pc == .leading)

/-- Whether some caller has not yet returned. -/
def sfAllDone (c : SFConfig) : Prop :=
  ∀ pc ∈ c.callers, ∃ r, pc = CallerPC.done r

/-- The single-flight safety and liveness package. -/
def SFInv (c : SFConfig) : Prop :=
  leadCount c ≤ 1
  ∧ (c.inFlight = true ↔ leadCount c = 1)
  ∧ (CallerPC.joining ∈ c.callers → c.inFlight = true)

/-! ### Concrete fixtures used by witnesses -/

/-- A stream state currently connected to a client. -/
def connectedStreamState : StreamState := { newStreamState with connected := true }

/-- A registry holding `MaxStreams` connected streams. -/
def fullManager : Manager := ⟨(List.range 32).map (fun i => (i, connectedStreamState))⟩

/-- A registry holding 31 connected streams and one disconnected stream whose
last disconnection was recorded at time 5. -/
def mixedManager : Manager :=
  ⟨(List.range 31).map (fun i => (i, connectedStreamState))
    ++ [(31, { newStreamState with lastDisconnectionAt := 5 })]⟩

/-- The configuration after the reconnect worker has passed its gate on a
fresh stream. -/
def armedStreamConfig : StreamConfig := { initStreamConfig with workerArmed := true }

/-- The configuration after the worker's `ForceReconnect` reached
`streamReconnector.Reconnect` with reader sequence number 7 at time 3. -/
def streamConfigW : StreamConfig :=
  { st := { lastConnectionAt := 0
            lastDisconnectionAt := 0
            connected := false
            closed := false
            handshakePending := true
            pendingReconnect := some 7 }
    phase2 := 0
    workerArmed := false }

/-- A connected stream with concrete identity, used by witnesses. -/
def streamFixture : Stream :=
  { id := 1, name := "brave-shannon", port := 8080, createdAt := 2, st := connectedStreamState }

/-! ## Theorems -/

/-- Helper: with no pending request and the stream not closed, every
iteration of the `HandleReconnect` loop re-checks the same state and waits. -/
theorem handlerRun_blocked (n : Nat) (s : StreamState) (readSeq : Nat)
    (hp : s.pendingReconnect = none) (hc : s.closed = false) :
    handlerRun n s readSeq = none := by
  induction n with
  | zero => rfl
  | succ k ih =>
    simp only [handlerRun, handleReconnectCheck, hp, hc]
    simpa using ih

/-- C10: `ToAPI` exposes the last-disconnection timestamp exactly when the
stream is currently not connected and the recorded time is non-zero; in
particular a currently connected stream reports no last-disconnection time
even when a past disconnection was recorded, and a disconnection recorded by
`handleDisconnect` at a non-zero time becomes visible. -/
theorem toAPI_lastDisconnection (s : Stream) (now : Nat) :
    ((toAPI s).lastDisconnectionAt.isSome ↔
      s.st.connected = false ∧ s.st.lastDisconnectionAt ≠ 0)
    ∧ (s.st.connected = true → (toAPI s).lastDisconnectionAt = none)
    ∧ (s.st.connected = true → now ≠ 0 →
        (toAPI { s with st := handleDisconnect s.st now }).lastDisconnectionAt = some now) := by
  refine ⟨?_, ?_, ?_⟩
  · unfold toAPI
    split <;> simp_all
  · intro hc
    unfold toAPI
    split <;> simp_all
  · intro hc hn
    unfold toAPI handleDisconnect
    simp [hc, hn]

/-- Witness for C10 at a concrete connected stream. -/
theorem toAPI_lastDisconnection_witness :
    (toAPI streamFixture).lastDisconnectionAt = none
    ∧ (toAPI { streamFixture with
          st := handleDisconnect streamFixture.st 4 }).lastDisconnectionAt = some 4 :=
  ⟨(toAPI_lastDisconnection streamFixture 4).2.1 rfl,
    (toAPI_lastDisconnection streamFixture 4).2.2 rfl (by decide)⟩

/-- C7: a second `Stream.Close` after a completed first one returns no error,
performs no teardown, and leaves the state unchanged. -/
theorem close_idempotent (s : StreamState) :
    (closeStream (closeStream s).1).2.1 = none
    ∧ (closeStream (closeStream s).1).2.2 = false
    ∧ (closeStream (closeStream s).1).1 = (closeStream s).1 := by
  unfold closeStream
  by_cases h : s.closed <;> simp [h]

/-- C5: `streamReconnector.Reconnect` called while a `pendingReconnect`
request already exists returns the already-in-progress error and leaves the
whole state (pending request, handshake flag, connection state) unchanged. -/
theorem reconnect_already_in_progress (s : StreamState) (seq now r : Nat)
    (h : s.pendingReconnect = some r) :
    reconnectAcquire s seq now = (s, some "reconnection already in progress") := by
  unfold reconnectAcquire
  simp [h]

/-- Witness for C5 at a concrete state with a pending request. -/
theorem reconnect_already_in_progress_witness :
    reconnectAcquire streamConfigW.st 9 4 =
      (streamConfigW.st, some "reconnection already in progress") :=
  reconnect_already_in_progress streamConfigW.st 9 4 7 rfl

/-- C6 (amended): the 30-second timer lives in `streamReconnector.Reconnect`
(the pipe-side wait for a client connection), not in `Stream.HandleReconnect`.
The timeout branch returns its timeout error to the pipe, leaves the closed
flag untouched, and clears the pending request, so a later reconnect attempt
(and hence a later handshake) can still succeed; `HandleReconnect` itself has
no timeout path and keeps waiting as long as no reconnect request appears and
the stream is not closed. -/
theorem reconnect_timeout_on_pipe_side (s : StreamState) (n seq readSeq now : Nat) :
    reconnectTimeoutSeconds = 30
    ∧ (reconnectTimeout s).2 = some "timeout waiting for reconnection response"
    ∧ (reconnectTimeout s).1.closed = s.closed
    ∧ (reconnectTimeout s).1.pendingReconnect = none
    ∧ (s.closed = false → (reconnectAcquire (reconnectTimeout s).1 seq now).2 = none)
    ∧ (s.pendingReconnect = none → s.closed = false → handlerRun n s readSeq = none) := by
  refine ⟨rfl, ?_, ?_, ?_, ?_, fun hp hc => handlerRun_blocked n s readSeq hp hc⟩
  · unfold reconnectTimeout
    split <;> rfl
  · unfold reconnectTimeout
    split <;> rfl
  · unfold reconnectTimeout
    cases h : s.pendingReconnect <;> simp [h]
  · intro hc
    unfold reconnectTimeout reconnectAcquire
    cases h : s.pendingReconnect <;> simp [h, hc]

/-- Witness for C6's amended statement at concrete states. -/
theorem reconnect_timeout_on_pipe_side_witness :
    (reconnectTimeout streamConfigW.st).2 = some "timeout waiting for reconnection response"
    ∧ (reconnectAcquire (reconnectTimeout streamConfigW.st).1 9 4).2 = none
    ∧ handlerRun 3 newStreamState 5 = none := by
  have h1 := reconnect_timeout_on_pipe_side streamConfigW.st 3 9 5 4
  have h2 := reconnect_timeout_on_pipe_side newStreamState 3 9 5 4
  exact ⟨h1.2.1, h1.2.2.2.2.1 rfl, h2.2.2.2.2.2 rfl rfl⟩

/-- Counterexample to C6 as stated: run the `HandleReconnect` loop of a live
stream for 100 wakeups during which the pipe never issues a reconnect request
— the handler is still blocked, and in particular has returned no timeout
error (its only exits are answering a pending request or observing a closed
stream; `HandlerStep` has no timeout outcome at all). -/
theorem handleReconnect_never_times_out :
    handlerRun 100 newStreamState 5 = none := by
  decide

/-- Helper: the `Unwrap` chain below the first `net.OpError` is part of the
whole chain, so an errno found below it is found from the top as well. -/
theorem asErrno_of_asOpError (e : GoError) :
    ∀ op inner, asOpError e = some (op, inner) → asErrno e = asErrno inner := by
  induction e with
  | errno n msg => intro op inner h; simp [asOpError] at h
  | opError op' inner' ih =>
    intro op inner h
    simp only [asOpError, Option.some.injEq, Prod.mk.injEq] at h
    rw [show inner = inner' from h.2.symm]
    rfl
  | str msg => intro op inner h; simp [asOpError] at h
  | wrap msg inner' ih =>
    intro op inner h
    simp only [asOpError] at h
    simpa [asErrno] using ih op inner h

/-- C8: a dial failure in `Manager.CreateStream` is classified by
`isConnectionRefused`: the error is treated as connection-refused exactly when
it unwraps to `ECONNREFUSED` or its message contains one of the recognized
refused-connection substrings; a refused error maps to the
connection-refused sentinel, every other dial error is propagated wrapped as
"dial local service", and in either case the registry is unchanged (no stream
is registered). -/
theorem dial_failure_classification (m : Manager) (e : GoError) (newId now : Nat)
    (hcap : m.streams.length < MaxStreams) :
    (isConnectionRefused e = true ↔
      (asErrno e = some ECONNREFUSED
        ∨ strContains (message e) refusedPattern1 = true
        ∨ strContains (message e) refusedPattern2 = true
        ∨ strContains (message e) refusedPattern3 = true))
    ∧ createStream m (.error e) newId now =
        (m, if isConnectionRefused e then .connRefused
            else .dialError (.wrap "dial local service" e)) := by
  constructor
  · unfold isConnectionRefused
    by_cases h1 : asErrno e = some ECONNREFUSED
    · simp [h1]
    · have h1b : (asErrno e == some ECONNREFUSED) = false := by
        simpa using h1
      rcases h2 : asOpError e with _ | ⟨op, inner⟩
      · simp only [h1b, h2, h1, Bool.or_eq_true, Bool.false_eq_true, if_false, false_or]
        tauto
      · have hsub : asErrno e = asErrno inner := asErrno_of_asOpError e op inner h2
        have h3 : (op == "dial" && asErrno inner == some ECONNREFUSED) = false := by
          rcases hop : op == "dial" with _ | _
          · simp [hop]
          · have : (asErrno inner == some ECONNREFUSED) = false := by
              rw [← hsub]; simpa using h1
            simp [hop, this]
        simp only [h1b, h2, h3, h1, Bool.or_eq_true, Bool.false_eq_true, if_false, false_or]
        tauto
  · have hlt : ¬ MaxStreams ≤ m.streams.length := Nat.not_le.mpr hcap
    unfold createStream
    simp only [hlt, if_neg, ite_false, createDialAndRegister]
    split_ifs <;> rfl

/-- Witness for C8: a refused `ECONNREFUSED` errno and an unrelated error at a
concrete registry. -/
theorem dial_failure_classification_witness :
    isConnectionRefused (GoError.errno 111 "connection refused") = true
    ∧ createStream emptyManager (.error (.errno 111 "connection refused")) 1 1 =
        (emptyManager, .connRefused)
    ∧ createStream emptyManager (.error (.str "boom")) 1 1 =
        (emptyManager, .dialError (.wrap "dial local service" (.str "boom"))) := by
  have h1 := dial_failure_classification emptyManager (.errno 111 "connection refused") 1 1 (by decide)
  have h2 := dial_failure_classification emptyManager (.str "boom") 1 1 (by decide)
  refine ⟨h1.1.mpr (Or.inl (by decide)), ?_, ?_⟩
  · rw [h1.2]; decide
  · rw [h2.2]; decide

/-- Helper: running a concatenation of event lists composes. -/
theorem pipeRun_append (p : BackedPipe) (a b : List PipeEvent) :
    pipeRun p (a ++ b) = pipeRun (pipeRun p a) b := by
  unfold pipeRun
  rw [List.foldl_append]

/-- Helper: a block of writes appends its flattened bytes to the retained
log and forwards them to the current transport when one is attached. -/
theorem pipeRun_writes (p : BackedPipe) (w : List (List Nat)) :
    pipeRun p (w.map .write) =
      { written := p.written ++ w.flatten
        transport := p.transport.map (· ++ w.flatten) } := by
  induction w generalizing p with
  | nil =>
    obtain ⟨pw, pt⟩ := p
    cases pt <;> simp [pipeRun]
  | cons x xs ih =>
    simp only [List.map_cons, List.flatten_cons]
    have hstep : pipeRun p (PipeEvent.write x :: xs.map .write) =
        pipeRun (pipeStep p (.write x)) (xs.map .write) := rfl
    rw [hstep, ih]
    cases h : p.transport <;> simp [pipeStep, h, List.append_assoc]

/-- C1 (the pipe is modelled from the spec): after writes `w`, a transport
drop, and a reconnect in which the Reconnector reports peer-acknowledged
offset `k ≤ len (w)`, followed by further writes `wafter`, the bytes carried
to the consumer by the new transport are exactly the suffix of the earlier
writes from offset `k` followed by all later bytes in write order — no byte
duplicated, none missing. -/
theorem no_data_loss_across_reconnect (w wafter : List (List Nat)) (k : Nat)
    (hk : k ≤ w.flatten.length) :
    (pipeRun newBackedPipe
        (w.map .write ++ [PipeEvent.drop, PipeEvent.reconnect k] ++ wafter.map .write)).transport
      = some (w.flatten.drop k ++ wafter.flatten) := by
  have hmid : pipeRun (pipeRun newBackedPipe (w.map .write))
      [PipeEvent.drop, PipeEvent.reconnect k] =
      { written := w.flatten, transport := some (w.flatten.drop k) } := by
    rw [pipeRun_writes]
    simp [pipeRun, pipeStep, newBackedPipe]
  rw [pipeRun_append, pipeRun_append, hmid, pipeRun_writes]
  simp

/-- Witness for C1: writes `[1,2],[3]`, drop, reconnect acknowledging 2
bytes, then write `[4,5]` — the consumer-side transport carries `[3,4,5]`. -/
theorem no_data_loss_across_reconnect_witness :
    (pipeRun newBackedPipe
        ([[1, 2], [3]].map PipeEvent.write
          ++ [PipeEvent.drop, PipeEvent.reconnect 2]
          ++ [[4, 5]].map PipeEvent.write)).transport
      = some ([3, 4, 5] : List Nat) := by
  have h := no_data_loss_across_reconnect [[1, 2], [3]] [[4, 5]] 2 (by decide)
  simpa using h

/-- Helper: the merge step always keeps a candidate. -/
theorem evictChoose_isSome (acc : Option (Nat × Nat)) (id d : Nat) :
    (evictChoose acc id d).isSome := by
  rcases acc with _ | ⟨oid, od⟩
  · rfl
  · simp only [evictChoose]
    split_ifs <;> simp

/-- Helper: the merge step picks either the running choice or the new
candidate. -/
theorem evictChoose_eq_or (acc : Option (Nat × Nat)) (id d : Nat) :
    evictChoose acc id d = acc ∨ evictChoose acc id d = some (id, d) := by
  rcases acc with _ | ⟨oid, od⟩
  · right; rfl
  · simp only [evictChoose]
    split_ifs <;> simp

/-- Helper: the merge step never worsens the choice: the kept timestamp stays
non-zero and no larger than both a non-zero running choice and a non-zero new
candidate. -/
theorem evictChoose_min (i0 t0 id d i1 t1 : Nat)
    (h : evictChoose (some (i0, t0)) id d = some (i1, t1)) :
    (t0 ≠ 0 → t1 ≠ 0 ∧ t1 ≤ t0) ∧ (d ≠ 0 → t1 ≠ 0 ∧ t1 ≤ d) := by
  simp only [evictChoose] at h
  split_ifs at h <;> simp only [Option.some.injEq, Prod.mk.injEq] at h <;>
    obtain ⟨h1, h2⟩ := h <;> subst h1 <;> subst h2 <;> constructor <;> intro hz <;>
    omega

/-- Helper: folding from an existing candidate always ends with a candidate. -/
theorem evictFold_some (l : List (Nat × StreamState)) :
    ∀ p : Nat × Nat, ∃ q, evictFold (some p) l = some q := by
  induction l with
  | nil => intro p; exact ⟨p, rfl⟩
  | cons hd tl ih =>
    intro p
    obtain ⟨id, st⟩ := hd
    by_cases hc : st.connected
    · simpa [evictFold, hc] using ih p
    · rcases hch : evictChoose (some p) id st.lastDisconnectionAt with _ | q'
      · exact absurd (hch ▸ evictChoose_isSome (some p) id st.lastDisconnectionAt) (by simp)
      · simpa [evictFold, hc, hch] using ih q'

/-- Helper: the fold's candidate, when it is not the initial one, names a
disconnected entry of the list together with its recorded timestamp. -/
theorem evictFold_mem (l : List (Nat × StreamState)) :
    ∀ acc i t, evictFold acc l = some (i, t) →
      acc = some (i, t)
      ∨ ∃ st, (i, st) ∈ l ∧ st.connected = false ∧ st.lastDisconnectionAt = t := by
  induction l with
  | nil => intro acc i t h; exact Or.inl h
  | cons hd tl ih =>
    intro acc i t h
    obtain ⟨id, st⟩ := hd
    by_cases hc : st.connected
    · rcases ih acc i t (by simpa [evictFold, hc] using h) with h' | ⟨st', hm, hcn, ht⟩
      · exact Or.inl h'
      · exact Or.inr ⟨st', List.mem_cons_of_mem _ hm, hcn, ht⟩
    · have h' : evictFold (evictChoose acc id st.lastDisconnectionAt) tl = some (i, t) := by
        simpa [evictFold, hc] using h
      rcases ih _ i t h' with h'' | ⟨st', hm, hcn, ht⟩
      · rcases evictChoose_eq_or acc id st.lastDisconnectionAt with he | he
        · exact Or.inl (he ▸ h'')
        · rw [he] at h''
          simp only [Option.some.injEq, Prod.mk.injEq] at h''
          obtain ⟨h1, h2⟩ := h''
          exact Or.inr ⟨st, by rw [← h1]; exact List.mem_cons_self _ _,
            Bool.eq_false_iff.mpr hc, h2⟩
      · exact Or.inr ⟨st', List.mem_cons_of_mem _ hm, hcn, ht⟩

/-- Helper: starting from a candidate, the final timestamp is non-zero and
minimal among the non-zero candidates seen (the initial one and every
disconnected entry with a recorded timestamp). -/
theorem evictFold_min (l : List (Nat × StreamState)) :
    ∀ i0 t0 i t, evictFold (some (i0, t0)) l = some (i, t) →
      (t0 ≠ 0 → t ≠ 0 ∧ t ≤ t0)
      ∧ ∀ j sj, (j, sj) ∈ l → sj.connected = false → sj.lastDisconnectionAt ≠ 0 →
          t ≠ 0 ∧ t ≤ sj.lastDisconnectionAt := by
  induction l with
  | nil =>
    intro i0 t0 i t h
    simp only [evictFold, Option.some.injEq, Prod.mk.injEq] at h
    obtain ⟨h1, h2⟩ := h
    subst h1; subst h2
    exact ⟨fun hz => ⟨hz, le_refl _⟩, by simp⟩
  | cons hd tl ih =>
    intro i0 t0 i t h
    obtain ⟨id, st⟩ := hd
    by_cases hc : st.connected
    · have h' : evictFold (some (i0, t0)) tl = some (i, t) := by
        simpa [evictFold, hc] using h
      refine ⟨(ih i0 t0 i t h').1, ?_⟩
      intro j sj hm hcn hz
      rcases List.mem_cons.mp hm with hm | hm
      · simp only [Prod.mk.injEq] at hm
        rw [hm.2] at hcn
        rw [hcn] at hc
        simp at hc
      · exact (ih i0 t0 i t h').2 j sj hm hcn hz
    · rcases hch : evictChoose (some (i0, t0)) id st.lastDisconnectionAt with _ | ⟨i1, t1⟩
      · exact absurd (hch ▸ evictChoose_isSome _ id st.lastDisconnectionAt) (by simp)
      · have h' : evictFold (some (i1, t1)) tl = some (i, t) := by
          simpa [evictFold, hc, hch] using h
        have hcm := evictChoose_min i0 t0 id st.lastDisconnectionAt i1 t1 hch
        have hih := ih i1 t1 i t h'
        refine ⟨?_, ?_⟩
        · intro hz
          obtain ⟨ht1, ht1le⟩ := hcm.1 hz
          obtain ⟨htne, htle⟩ := hih.1 ht1
          exact ⟨htne, le_trans htle ht1le⟩
        · intro j sj hm hcn hz
          rcases List.mem_cons.mp hm with hm | hm
          · simp only [Prod.mk.injEq] at hm
            rw [hm.2] at hz ⊢
            obtain ⟨ht1, ht1le⟩ := hcm.2 hz
            obtain ⟨htne, htle⟩ := hih.1 ht1
            exact ⟨htne, le_trans htle ht1le⟩
          · exact hih.2 j sj hm hcn hz

/-- Helper: with no disconnected entry the scan keeps its initial value. -/
theorem evictFold_all_connected (l : List (Nat × StreamState)) :
    ∀ acc, (∀ e ∈ l, e.2.connected = true) → evictFold acc l = acc := by
  induction l with
  | nil => intro acc _; rfl
  | cons hd tl ih =>
    intro acc hall
    obtain ⟨id, st⟩ := hd
    have hc : st.connected = true := hall (id, st) (List.mem_cons_self _ _)
    simpa [evictFold, hc] using ih acc (fun e he => hall e (List.mem_cons_of_mem _ he))

/-- Helper: a disconnected entry guarantees the scan finds a victim. -/
theorem evictFold_isSome_of_disconnected (l : List (Nat × StreamState))
    (h : ∃ e ∈ l, e.2.connected = false) : ∃ q, evictFold none l = some q := by
  induction l with
  | nil => simp at h
  | cons hd tl ih =>
    obtain ⟨id, st⟩ := hd
    by_cases hc : st.connected
    · obtain ⟨e, he, hec⟩ := h
      rcases List.mem_cons.mp he with he | he
      · rw [he] at hec; simp [hc] at hec
      · obtain ⟨q, hq⟩ := ih ⟨e, he, hec⟩
        exact ⟨q, by simpa [evictFold, hc] using hq⟩
    · have : evictFold none ((id, st) :: tl) =
          evictFold (some (id, st.lastDisconnectionAt)) tl := by
        simp [evictFold, hc, evictChoose]
      obtain ⟨q, hq⟩ := evictFold_some tl (id, st.lastDisconnectionAt)
      exact ⟨q, by rw [this]; exact hq⟩

/-- Helper: removing a present key strictly shrinks the registry list. -/
theorem filter_length_lt_of_mem {l : List (Nat × StreamState)} {i : Nat} {st : StreamState}
    (h : (i, st) ∈ l) : (l.filter (fun e => e.1 != i)).length < l.length := by
  induction l with
  | nil => cases h
  | cons hd tl ih =>
    rcases List.mem_cons.mp h with h | h
    · have hhd : (hd.1 != i) = false := by
        rw [← h]; simp
      simp only [List.filter_cons, hhd, Bool.false_eq_true, if_false, List.length_cons]
      exact Nat.lt_succ_of_le (List.length_filter_le _ tl)
    · by_cases hhd : (hd.1 != i) = true
      · simp only [List.filter_cons, hhd, if_true, List.length_cons]
        exact Nat.succ_lt_succ (ih h)
      · simp only [Bool.not_eq_true] at hhd
        simp only [List.filter_cons, hhd, Bool.false_eq_true, if_false, List.length_cons]
        exact Nat.lt_succ_of_lt (ih h)

/-- Helper: a successful eviction strictly shrinks the registry. -/
theorem evictOldestDisconnected_length_lt (m : Manager)
    (h : (evictOldestDisconnected m).1 = true) :
    (evictOldestDisconnected m).2.streams.length < m.streams.length := by
  unfold evictOldestDisconnected at *
  rcases hev : evictFold none m.streams with _ | ⟨oid, t⟩
  · rw [hev] at h; simp at h
  · rcases evictFold_mem m.streams none oid t hev with h' | ⟨st, hmem, _, _⟩
    · cases h'
    · simp only [hev]
      exact filter_length_lt_of_mem hmem

/-- Helper: the dial-and-register tail adds at most one entry. -/
theorem createDialAndRegister_length (m1 : Manager) (d : Except GoError Unit)
    (nid now : Nat) :
    (createDialAndRegister m1 d nid now).1.streams.length ≤ m1.streams.length + 1 := by
  rcases d with e | u
  · simp only [createDialAndRegister]
    split_ifs <;> simp
  · simp [createDialAndRegister]

/-- Helper: the dial-and-register tail never reports capacity exhaustion. -/
theorem createDialAndRegister_ne_tooMany (m1 : Manager) (d : Except GoError Unit)
    (nid now : Nat) :
    (createDialAndRegister m1 d nid now).2 ≠ CreateResult.tooManyStreams := by
  rcases d with e | u
  · simp only [createDialAndRegister]
    split_ifs <;> simp
  · simp [createDialAndRegister]

/-- Helper: `CreateStream` keeps the registry within `MaxStreams`. -/
theorem createStream_length_le (m : Manager) (d : Except GoError Unit) (nid now : Nat)
    (h : m.streams.length ≤ MaxStreams) :
    (createStream m d nid now).1.streams.length ≤ MaxStreams := by
  unfold createStream
  by_cases hcap : MaxStreams ≤ m.streams.length
  · rcases hev : (evictOldestDisconnected m) with ⟨ok, m'⟩
    cases ok
    · simp only [hcap, if_true, if_pos, hev]
      exact h
    · have hlt : m'.streams.length < m.streams.length := by
        have := evictOldestDisconnected_length_lt m (by rw [hev])
        rwa [hev] at this
      simp only [hcap, if_true, if_pos, hev]
      have := createDialAndRegister_length m' d nid now
      omega
  · simp only [hcap, if_neg, ite_false]
    have hlt : m.streams.length < MaxStreams := Nat.lt_of_not_le hcap
    have := createDialAndRegister_length m d nid now
    omega

/-- Helper: every manager operation keeps the registry within `MaxStreams`. -/
theorem applyOp_length_le (m : Manager) (op : ManagerOp)
    (h : m.streams.length ≤ MaxStreams) :
    (applyOp m op).streams.length ≤ MaxStreams := by
  cases op with
  | create d nid now => exact createStream_length_le m d nid now h
  | delete id =>
    show (deleteStream m id).1.streams.length ≤ MaxStreams
    unfold deleteStream
    split
    · exact le_trans (List.length_filter_le _ _) h
    · exact h
  | closeAll => simpa [applyOp, closeAllStreams] using Nat.zero_le _
  | disconnect id now => simpa [applyOp, updateStream] using h
  | clientConnect id now => simpa [applyOp, updateStream] using h
  | reconnectBegin id seq now => simpa [applyOp, updateStream] using h
  | reconnectTimedOut id => simpa [applyOp, updateStream] using h
  | closeOne id => simpa [applyOp, updateStream] using h

/-- Helper: folding any operation sequence from a within-capacity registry
stays within capacity. -/
theorem foldl_applyOp_length_le (ops : List ManagerOp) :
    ∀ m : Manager, m.streams.length ≤ MaxStreams →
      (ops.foldl applyOp m).streams.length ≤ MaxStreams := by
  induction ops with
  | nil => intro m h; exact h
  | cons op rest ih =>
    intro m h
    exact ih _ (applyOp_length_le m op h)

/-- C2: over every sequence of manager operations the registry never holds
more than `MaxStreams` (32) streams; a creation finding the registry full of
connected streams fails with the too-many-streams error leaving the registry
unchanged; and a creation finding the registry full with some disconnected
stream first evicts a disconnected stream and is not rejected for capacity. -/
theorem capacity_enforcement :
    (∀ ops : List ManagerOp, ((ops.foldl applyOp emptyManager).streams.length ≤ MaxStreams))
    ∧ (∀ (m : Manager) (d : Except GoError Unit) (nid now : Nat),
        MaxStreams ≤ m.streams.length →
        (∀ e ∈ m.streams, e.2.connected = true) →
        createStream m d nid now = (m, .tooManyStreams))
    ∧ (∀ (m : Manager) (d : Except GoError Unit) (nid now : Nat),
        m.streams.length = MaxStreams →
        (∃ e ∈ m.streams, e.2.connected = false) →
        (∃ oid t st, evictFold none m.streams = some (oid, t)
            ∧ (oid, st) ∈ m.streams ∧ st.connected = false)
        ∧ (createStream m d nid now).2 ≠ .tooManyStreams
        ∧ (createStream m d nid now).1.streams.length ≤ MaxStreams) := by
  refine ⟨fun ops => foldl_applyOp_length_le ops emptyManager (by simp [emptyManager]), ?_, ?_⟩
  · intro m d nid now hcap hall
    have hev : evictFold none m.streams = none := evictFold_all_connected m.streams none hall
    unfold createStream evictOldestDisconnected
    simp [hcap, hev]
  · intro m d nid now hlen hex
    obtain ⟨⟨oid, t⟩, hq⟩ := evictFold_isSome_of_disconnected m.streams hex
    rcases evictFold_mem m.streams none oid t hq with h' | ⟨st, hmem, hcn, _⟩
    · cases h'
    · have hcap : MaxStreams ≤ m.streams.length := le_of_eq hlen.symm
      refine ⟨⟨oid, t, st, hq, hmem, hcn⟩, ?_,
        createStream_length_le m d nid now (le_of_eq hlen)⟩
      unfold createStream evictOldestDisconnected
      simp only [hcap, if_true, if_pos, hq]
      exact createDialAndRegister_ne_tooMany _ d nid now

/-- Witness for C2 at concrete registries: a full connected registry rejects
creation unchanged; a full registry with one disconnected stream lets
creation proceed within capacity. -/
theorem capacity_enforcement_witness :
    ((([] : List ManagerOp).foldl applyOp emptyManager).streams.length ≤ MaxStreams)
    ∧ createStream fullManager (.ok ()) 99 7 = (fullManager, .tooManyStreams)
    ∧ (createStream mixedManager (.ok ()) 99 7).2 ≠ CreateResult.tooManyStreams
    ∧ (createStream mixedManager (.ok ()) 99 7).1.streams.length ≤ MaxStreams := by
  have h1 := capacity_enforcement.1 []
  have h2 := capacity_enforcement.2.1 fullManager (.ok ()) 99 7 (by decide) (by decide)
  have h3 := capacity_enforcement.2.2 mixedManager (.ok ()) 99 7 (by decide) (by decide)
  exact ⟨h1, h2, h3.2.1, h3.2.2⟩

/-- C3: the eviction scan considers only disconnected streams; its choice is
deterministic along the scan: any disconnected stream with a non-zero
recorded timestamp forces the chosen timestamp to be non-zero and no later
than it (so a never-connected candidate with zero timestamp never beats a
recorded one, and among recorded ones the earliest wins); with no
disconnected stream, eviction fails and the triggering at-capacity creation
is rejected. -/
theorem eviction_policy :
    (∀ (l : List (Nat × StreamState)) (i t : Nat), evictFold none l = some (i, t) →
        ∃ st, (i, st) ∈ l ∧ st.connected = false ∧ st.lastDisconnectionAt = t)
    ∧ (∀ (l : List (Nat × StreamState)) (i t : Nat), evictFold none l = some (i, t) →
        ∀ j sj, (j, sj) ∈ l → sj.connected = false → sj.lastDisconnectionAt ≠ 0 →
          t ≠ 0 ∧ t ≤ sj.lastDisconnectionAt)
    ∧ (∀ m : Manager, (∀ e ∈ m.streams, e.2.connected = true) →
        evictOldestDisconnected m = (false, m)
        ∧ ∀ (d : Except GoError Unit) (nid now : Nat), MaxStreams ≤ m.streams.length →
            createStream m d nid now = (m, .tooManyStreams)) := by
  refine ⟨?_, ?_, ?_⟩
  · intro l i t h
    rcases evictFold_mem l none i t h with h' | h'
    · cases h'
    · exact h'
  · intro l i t h j sj hm hcn hz
    induction l with
    | nil => cases hm
    | cons hd tl ih =>
      obtain ⟨id, st⟩ := hd
      by_cases hc : st.connected
      · have h' : evictFold none tl = some (i, t) := by
          simpa [evictFold, hc] using h
        rcases List.mem_cons.mp hm with hm' | hm'
        · simp only [Prod.mk.injEq] at hm'
          rw [hm'.2] at hcn
          rw [hcn] at hc
          simp at hc
        · exact ih h' hm'
      · have h' : evictFold (some (id, st.lastDisconnectionAt)) tl = some (i, t) := by
          simpa [evictFold, hc, evictChoose] using h
        have hmin := evictFold_min tl id st.lastDisconnectionAt i t h'
        rcases List.mem_cons.mp hm with hm' | hm'
        · simp only [Prod.mk.injEq] at hm'
          rw [hm'.2] at hz ⊢
          exact hmin.1 hz
        · exact hmin.2 j sj hm' hcn hz
  · intro m hall
    have hev : evictFold none m.streams = none := evictFold_all_connected m.streams none hall
    constructor
    · unfold evictOldestDisconnected
      rw [hev]
    · intro d nid now hcap
      unfold createStream evictOldestDisconnected
      simp [hcap, hev]

/-- Witness for C3 at concrete registries. -/
theorem eviction_policy_witness :
    (∃ st, ((31 : Nat), st) ∈ mixedManager.streams
        ∧ st.connected = false ∧ st.lastDisconnectionAt = 5)
    ∧ evictOldestDisconnected fullManager = (false, fullManager)
    ∧ createStream fullManager (.ok ()) 99 7 = (fullManager, .tooManyStreams) := by
  have hscan : evictFold none mixedManager.streams = some (31, 5) := by decide
  have h1 := eviction_policy.1 mixedManager.streams 31 5 hscan
  have h3 := eviction_policy.2.2 fullManager (by decide)
  exact ⟨h1, h3.1, h3.2 (.ok ()) 99 7 (by decide)⟩

/-- Helper: the invariant holds for a fresh stream. -/
theorem streamInv_init : StreamInv initStreamConfig := by
  refine ⟨?_, ?_, ?_, ?_⟩ <;> simp [StreamInv, initStreamConfig, newStreamState]

/-- Helper: every atomic step of the coordination machine preserves the
invariant. -/
theorem streamInv_step (b c : StreamConfig) (hinv : StreamInv b) (hstep : StreamStep b c) :
    StreamInv c := by
  obtain ⟨i1, i2, i3, i4⟩ := hinv
  cases hstep with
  | workerGate pd hw hc hh hcd =>
    refine ⟨i1, ?_, i3, i4⟩
    intro _
    have hpn : b.st.pendingReconnect = none := by
      cases hp : b.st.pendingReconnect with
      | none => rfl
      | some v =>
        have := (i1 (by simp [hp])).1
        simp [this] at hh
    have hph : b.phase2 = 0 := by
      rcases Nat.eq_zero_or_pos b.phase2 with h0 | h0
      · exact h0
      · rcases (i3 h0).2 with h' | h'
        · simp [h'] at hh
        · simp [h'] at hc
    exact ⟨hh, hpn, hph⟩
  | reconnectCall seq now hw =>
    obtain ⟨hh, hpn, hph⟩ := i2 hw
    by_cases hcl : b.st.closed = true
    · have hst : (reconnectAcquire b.st seq now).1 = b.st := by
        simp [reconnectAcquire, hpn, hcl]
      rw [hst]
      exact ⟨i1, fun h => absurd h (by simp), i3, i4⟩
    · have hst : (reconnectAcquire b.st seq now).1 =
          { b.st with
              pendingReconnect := some seq
              handshakePending := true
              connected := false
              lastDisconnectionAt :=
                if b.st.connected then now else b.st.lastDisconnectionAt } := by
        simp [reconnectAcquire, hpn, hcl]
      rw [hst]
      exact ⟨fun _ => ⟨rfl, rfl⟩, fun h => absurd h (by simp),
        fun h0 => absurd h0 (by simp [hph]), i4⟩
  | handlerRespond hp =>
    obtain ⟨hhs, hcn⟩ := i1 hp
    have hpn : b.st.pendingReconnect ≠ none := by
      simp only [← Option.isSome_iff_ne_none, hp]
    have hph : b.phase2 = 0 := by
      rcases Nat.eq_zero_or_pos b.phase2 with h0 | h0
      · exact h0
      · exact absurd (i3 h0).1 hpn
    refine ⟨fun h => absurd h (by simp), fun h => ?_, fun _ => ⟨rfl, Or.inl hhs⟩,
      by dsimp only; omega⟩
    exact absurd (i2 h).2.1 hpn
  | handlerFinish now hph2 =>
    refine ⟨fun h => ?_, fun h => ?_, fun h0 => ?_, by dsimp only; omega⟩
    · simp [handleReconnectFinish, (i3 hph2).1] at h
    · exact absurd (i2 h).2.2 (by omega)
    · exact absurd h0 (by dsimp only; omega)
  | timeoutFire =>
    by_cases hp : b.st.pendingReconnect.isSome
    · have hst : (reconnectTimeout b.st).1 =
          { b.st with
              pendingReconnect := none
              handshakePending := false } := by
        simp [reconnectTimeout, hp]
      rw [hst]
      refine ⟨fun h => absurd h (by simp), fun h => ?_, fun h0 => ?_, i4⟩
      · simp [(i2 h).2.1] at hp
      · simp [(i3 h0).1] at hp
    · have hst : (reconnectTimeout b.st).1 = b.st := by
        simp [reconnectTimeout, hp]
      rw [hst]
      exact ⟨i1, i2, i3, i4⟩
  | closeCall =>
    by_cases hcl : b.st.closed = true
    · have hst : (closeStream b.st).1 = b.st := by
        simp [closeStream, hcl]
      rw [hst]
      exact ⟨i1, i2, i3, i4⟩
    · have hst : (closeStream b.st).1 =
          { b.st with
              closed := true
              connected := false
              pendingReconnect := none
              handshakePending :=
                if b.st.pendingReconnect.isSome then false else b.st.handshakePending } := by
        simp [closeStream, hcl]
      rw [hst]
      refine ⟨fun h => absurd h (by simp), fun h => ?_, fun _ => ⟨rfl, Or.inr rfl⟩, i4⟩
      obtain ⟨hh, hpn, hph⟩ := i2 h
      exact ⟨by simp [hpn, hh], rfl, hph⟩
  | disconnectSignal now =>
    by_cases hcn : b.st.connected = true
    · have hst : handleDisconnect b.st now =
          { b.st with
              connected := false
              lastDisconnectionAt := now } := by
        simp [handleDisconnect, hcn]
      rw [hst]
      exact ⟨fun h => ⟨(i1 h).1, rfl⟩, fun h => i2 h, fun h0 => i3 h0, i4⟩
    · have hst : handleDisconnect b.st now = b.st := by
        simp [handleDisconnect, hcn]
      rw [hst]
      exact ⟨i1, i2, i3, i4⟩
  | startCall now =>
    by_cases hcl : b.st.closed = true
    · have hst : (startStream b.st now).1 = b.st := by
        simp [startStream, hcl]
      rw [hst]
      exact ⟨i1, i2, i3, i4⟩
    · have hst : (startStream b.st now).1 =
          { b.st with
              lastConnectionAt := now
              connected := false } := by
        simp [startStream, hcl]
      rw [hst]
      exact ⟨fun h => ⟨(i1 h).1, rfl⟩, fun h => i2 h, fun h0 => i3 h0, i4⟩

/-- Helper: the invariant holds in every reachable configuration. -/
theorem streamReach_inv (c : StreamConfig) (h : StreamReachable c) : StreamInv c := by
  induction h with
  | refl => exact streamInv_init
  | tail b c hab hbc ih => exact streamInv_step b c ih hbc

/-- C9: in every reachable configuration of the stream's coordination
machine, a non-nil `pendingReconnect` implies the `handshakePending` flag is
raised and the `connected` flag is cleared; since reachability is closed
under every modelled operation (request installation, handshake response and
completion, timeout, close, disconnect, start, worker activity), each of
those operations preserves the invariant. -/
theorem pending_implies_handshake_disconnected (c : StreamConfig)
    (h : StreamReachable c) (hp : c.st.pendingReconnect.isSome) :
    c.st.handshakePending = true ∧ c.st.connected = false :=
  (streamReach_inv c h).1 hp

/-- Helper: the configuration with an installed pending request is reachable
(worker gate, then the reconnector call installing the request). -/
theorem streamConfigW_reachable : StreamReachable streamConfigW := by
  have h1 : StreamStep initStreamConfig armedStreamConfig :=
    StreamStep.workerGate initStreamConfig false rfl rfl rfl (Or.inl rfl)
  have h2 : StreamStep armedStreamConfig streamConfigW := by
    have h := StreamStep.reconnectCall armedStreamConfig 7 3 rfl
    exact h
  exact StreamReach.tail _ _ _ (StreamReach.tail _ _ _ (StreamReach.refl _) h1) h2

/-- Witness for C9 at the concrete reachable configuration with a pending
request. -/
theorem pending_implies_handshake_disconnected_witness :
    streamConfigW.st.handshakePending = true ∧ streamConfigW.st.connected = false :=
  pending_implies_handshake_disconnected streamConfigW streamConfigW_reachable rfl

/-- Helper: `start` is not `leading` under the derived equality test. -/
theorem start_beq_leading : (CallerPC.start == CallerPC.leading) = false := rfl

/-- Helper: `joining` is not `leading` under the derived equality test. -/
theorem joining_beq_leading : (CallerPC.joining == CallerPC.leading) = false := rfl

/-- Helper: `leading` equals itself under the derived equality test. -/
theorem leading_beq_leading : (CallerPC.leading == CallerPC.leading) = true := rfl

/-- Helper: a finished caller is not `leading` under the equality test. -/
theorem done_beq_leading (r : Option String) :
    (CallerPC.done r == CallerPC.leading) = false := rfl

/-- Helper: settling joiners neither creates nor destroys a leader. -/
theorem countP_settle (l : List CallerPC) (r : Option String) :
    (l.map (settleJoiner r)).countP (fun pc => pc == CallerPC.leading)
      = l.countP (fun pc => pc == CallerPC.leading) := by
  induction l with
  | nil => rfl
  | cons a l ih =>
    cases a <;>
      simp [List.countP_cons, settleJoiner, ih, start_beq_leading, joining_beq_leading,
        leading_beq_leading, done_beq_leading]

/-- Helper: after settling, no caller is still joining. -/
theorem joining_notin_settle (l : List CallerPC) (r : Option String) :
    CallerPC.joining ∉ l.map (settleJoiner r) := by
  intro h
  obtain ⟨a, _, hEq⟩ := List.mem_map.mp h
  cases a <;> simp [settleJoiner] at hEq

/-- Helper: the single-flight invariant holds initially. -/
theorem sfInv_init (n : Nat) : SFInv (sfInit n) := by
  have hcount : leadCount (sfInit n) = 0 := by
    apply List.countP_eq_zero.mpr
    intro a ha
    have h := List.eq_of_mem_replicate ha
    subst h
    simp
  refine ⟨by omega, ?_, ?_⟩
  · constructor
    · intro h; exact absurd h (by simp [sfInit])
    · intro h; omega
  · intro hj
    have h := List.eq_of_mem_replicate hj
    cases h

/-- Helper: counting leaders through one more caller. -/
theorem countP_lead_cons (x : CallerPC) (l : List CallerPC) :
    (x :: l).countP (fun pc => pc == CallerPC.leading)
      = l.countP (fun pc => pc == CallerPC.leading)
        + (if x = CallerPC.leading then 1 else 0) := by
  cases x <;> simp [List.countP_cons]

/-- Helper: the leader count around a distinguished caller. -/
theorem leadCount_mid (fl : Bool) (pre post : List CallerPC) (x : CallerPC) :
    leadCount ⟨fl, pre ++ x :: post⟩
      = pre.countP (fun pc => pc == CallerPC.leading)
        + post.countP (fun pc => pc == CallerPC.leading)
        + (if x = CallerPC.leading then 1 else 0) := by
  simp only [leadCount, List.countP_append, countP_lead_cons]
  omega

/-- Helper: the leader count around a waiting caller. -/
theorem leadCount_mid_start (fl : Bool) (pre post : List CallerPC) :
    leadCount ⟨fl, pre ++ CallerPC.start :: post⟩
      = pre.countP (fun pc => pc == CallerPC.leading)
        + post.countP (fun pc => pc == CallerPC.leading) := by
  rw [leadCount_mid]
  simp

/-- Helper: the leader count around a joined caller. -/
theorem leadCount_mid_joining (fl : Bool) (pre post : List CallerPC) :
    leadCount ⟨fl, pre ++ CallerPC.joining :: post⟩
      = pre.countP (fun pc => pc == CallerPC.leading)
        + post.countP (fun pc => pc == CallerPC.leading) := by
  rw [leadCount_mid]
  simp

/-- Helper: the leader count around a finished caller. -/
theorem leadCount_mid_done (fl : Bool) (pre post : List CallerPC) (r : Option String) :
    leadCount ⟨fl, pre ++ CallerPC.done r :: post⟩
      = pre.countP (fun pc => pc == CallerPC.leading)
        + post.countP (fun pc => pc == CallerPC.leading) := by
  rw [leadCount_mid]
  simp

/-- Helper: the leader count around the leader. -/
theorem leadCount_mid_leading (fl : Bool) (pre post : List CallerPC) :
    leadCount ⟨fl, pre ++ CallerPC.leading :: post⟩
      = pre.countP (fun pc => pc == CallerPC.leading)
        + post.countP (fun pc => pc == CallerPC.leading) + 1 := by
  rw [leadCount_mid]
  simp

/-- Helper: every single-flight step preserves the invariant. -/
theorem sfInv_step (b c : SFConfig) (hinv : SFInv b) (hstep : SFStep b c) : SFInv c := by
  obtain ⟨i1, i2, i3⟩ := hinv
  cases hstep with
  | lead pre post =>
    rw [leadCount_mid_start] at i1
    have hz : pre.countP (fun pc => pc == CallerPC.leading)
        + post.countP (fun pc => pc == CallerPC.leading) = 0 := by
      have hne : leadCount (⟨false, pre ++ CallerPC.start :: post⟩ : SFConfig) ≠ 1 := by
        intro hone
        exact Bool.noConfusion (i2.mpr hone)
      rw [leadCount_mid_start] at hne
      omega
    refine ⟨?_, ?_, fun _ => rfl⟩
    · rw [leadCount_mid_leading]
      omega
    · constructor
      · intro _
        rw [leadCount_mid_leading]
        omega
      · intro _
        rfl
  | join pre post =>
    have he : leadCount (⟨true, pre ++ CallerPC.joining :: post⟩ : SFConfig)
        = leadCount (⟨true, pre ++ CallerPC.start :: post⟩ : SFConfig) := by
      rw [leadCount_mid_joining, leadCount_mid_start]
    refine ⟨?_, ?_, fun _ => rfl⟩
    · rw [he]
      exact i1
    · constructor
      · intro _
        rw [he]
        exact i2.mp rfl
      · intro _
        rfl
  | finish pre post r =>
    have hone : leadCount (⟨true, pre ++ CallerPC.leading :: post⟩ : SFConfig) = 1 :=
      i2.mp rfl
    rw [leadCount_mid_leading] at hone
    have hc : leadCount (⟨false,
        pre.map (settleJoiner r) ++ CallerPC.done r :: post.map (settleJoiner r)⟩
          : SFConfig) = 0 := by
      rw [leadCount_mid_done]
      simp only [countP_settle]
      omega
    refine ⟨by rw [hc]; omega, ?_, fun hj => ?_⟩
    · constructor
      · intro h
        exact Bool.noConfusion h
      · intro h
        rw [hc] at h
        exact Nat.noConfusion h
    · rcases List.mem_append.mp hj with hj | hj
      · exact absurd hj (joining_notin_settle pre r)
      · rcases List.mem_cons.mp hj with hj | hj
        · exact CallerPC.noConfusion hj
        · exact absurd hj (joining_notin_settle post r)

/-- Helper: the invariant holds in every configuration reachable from `N`
pending callers. -/
theorem sfReach_inv (n : Nat) (c : SFConfig) (h : SFReach (sfInit n) c) : SFInv c := by
  induction h with
  | refl => exact sfInv_init n
  | tail b c hab hbc ih => exact sfInv_step b c ih hbc

/-- Helper: a configuration satisfying the invariant with an unfinished
caller always has an enabled step (no deadlock). -/
theorem sf_progress (c : SFConfig) (hinv : SFInv c) (h : ¬ sfAllDone c) :
    ∃ c', SFStep c c' := by
  obtain ⟨fl, cs⟩ := c
  obtain ⟨i1, i2, i3⟩ := hinv
  have hex : ∃ pc ∈ cs, ∀ r, pc ≠ CallerPC.done r := by
    by_contra hall
    push_neg at hall
    exact h fun pc hpc => hall pc hpc
  obtain ⟨pc, hmem, hnd⟩ := hex
  obtain ⟨pre, post, hsplit⟩ := List.append_of_mem hmem
  subst hsplit
  cases pc with
  | start =>
    cases fl with
    | false => exact ⟨_, SFStep.lead pre post⟩
    | true => exact ⟨_, SFStep.join pre post⟩
  | leading =>
    have hfl : fl = true := by
      apply i2.mpr
      rw [leadCount_mid_leading] at i1 ⊢
      omega
    subst hfl
    exact ⟨_, SFStep.finish pre post none⟩
  | joining =>
    have hfl : fl = true := i3 (by simp)
    subst hfl
    have hone : leadCount ⟨true, pre ++ CallerPC.joining :: post⟩ = 1 := i2.mp rfl
    have hpos : 0 < (pre ++ CallerPC.joining :: post).countP
        (fun pc => pc == CallerPC.leading) := by
      simp only [leadCount] at hone
      omega
    obtain ⟨a, hamem, ha⟩ := List.countP_pos_iff.mp hpos
    have haeq : a = CallerPC.leading := by
      cases a with
      | leading => rfl
      | start => simp at ha
      | joining => simp at ha
      | done r => simp at ha
    subst haeq
    obtain ⟨pre2, post2, hsplit2⟩ := List.append_of_mem hamem
    rw [hsplit2]
    exact ⟨_, SFStep.finish pre2 post2 none⟩
  | done r => exact absurd rfl (hnd r)

/-- Helper: reachability is transitive. -/
theorem sfReach_trans (a b c : SFConfig) (h1 : SFReach a b) (h2 : SFReach b c) :
    SFReach a c := by
  induction h2 with
  | refl => exact h1
  | tail y z hby hyz ih => exact SFReach.tail _ _ _ ih hyz

/-- Helper: a step followed by a reachable run is reachable. -/
theorem sfReach_head (a b c : SFConfig) (h1 : SFStep a b) (h2 : SFReach b c) :
    SFReach a c :=
  sfReach_trans a b c (SFReach.tail _ _ _ (SFReach.refl a) h1) h2

/-- Helper: with an attempt in flight, any block of waiting callers can all
join it one by one. -/
theorem sf_joinAll (k : Nat) :
    ∀ pre : List CallerPC,
      SFReach ⟨true, pre ++ List.replicate k CallerPC.start⟩
              ⟨true, pre ++ List.replicate k CallerPC.joining⟩ := by
  induction k with
  | zero => intro pre; exact SFReach.refl _
  | succ k ih =>
    intro pre
    have hstep : SFStep ⟨true, pre ++ List.replicate (k + 1) CallerPC.start⟩
        ⟨true, pre ++ CallerPC.joining :: List.replicate k CallerPC.start⟩ := by
      have h := SFStep.join pre (List.replicate k CallerPC.start)
      simpa [List.replicate_succ] using h
    have hrest := ih (pre ++ [CallerPC.joining])
    rw [List.append_assoc, List.append_assoc] at hrest
    simp only [List.singleton_append] at hrest
    have hre : pre ++ CallerPC.joining :: List.replicate k CallerPC.joining
        = pre ++ List.replicate (k + 1) CallerPC.joining := by
      simp [List.replicate_succ]
    rw [hre] at hrest
    exact sfReach_head _ _ _ hstep hrest

/-- Helper: the canonical single-flight run: one caller leads, the other
`n - 1` join, the attempt finishes with result `r`, and every caller returns
that same result. -/
theorem sf_run (n : Nat) (r : Option String) (hn : 1 ≤ n) :
    SFReach (sfInit n) ⟨false, List.replicate n (CallerPC.done r)⟩ := by
  obtain ⟨m, rfl⟩ : ∃ m, n = m + 1 := ⟨n - 1, by omega⟩
  have h1 : SFStep (sfInit (m + 1))
      ⟨true, CallerPC.leading :: List.replicate m CallerPC.start⟩ := by
    have h := SFStep.lead [] (List.replicate m CallerPC.start)
    simpa [sfInit, List.replicate_succ] using h
  have h2 := sf_joinAll m [CallerPC.leading]
  simp only [List.singleton_append] at h2
  have h3 : SFStep ⟨true, CallerPC.leading :: List.replicate m CallerPC.joining⟩
      ⟨false, CallerPC.done r :: List.replicate m (CallerPC.done r)⟩ := by
    have h := SFStep.finish [] (List.replicate m CallerPC.joining) r
    simpa [settleJoiner, List.map_replicate] using h
  have hfin : SFReach (sfInit (m + 1))
      ⟨false, CallerPC.done r :: List.replicate m (CallerPC.done r)⟩ :=
    sfReach_head _ _ _ h1 (SFReach.tail _ _ _ h2 h3)
  simpa [List.replicate_succ] using hfin

/-- C4 (the single-flight mechanism is modelled from the spec): starting from
`n ≥ 1` concurrent `forceReconnect` callers on a disconnected pipe, every
reachable configuration has at most one Reconnector invocation in flight, a
configuration with an unfinished caller always has an enabled step (no
deadlock), and the run in which all callers participate in one attempt ends
with every caller returning the same result. -/
theorem single_flight_reconnect (n : Nat) (hn : 1 ≤ n) :
    (∀ c : SFConfig, SFReach (sfInit n) c →
        leadCount c ≤ 1 ∧ (¬ sfAllDone c → ∃ c', SFStep c c'))
    ∧ (∀ r : Option String, SFReach (sfInit n) ⟨false, List.replicate n (CallerPC.done r)⟩) := by
  constructor
  · intro c hc
    have hinv := sfReach_inv n c hc
    exact ⟨hinv.1, fun hnd => sf_progress c hinv hnd⟩
  · intro r
    exact sf_run n r hn

/-- Witness for C4 with two concurrent callers. -/
theorem single_flight_reconnect_witness :
    leadCount (sfInit 2) ≤ 1
    ∧ (¬ sfAllDone (sfInit 2) → ∃ c', SFStep (sfInit 2) c')
    ∧ SFReach (sfInit 2) ⟨false, List.replicate 2 (CallerPC.done none)⟩ := by
  have h := single_flight_reconnect 2 (by omega)
  exact ⟨(h.1 (sfInit 2) (SFReach.refl _)).1, (h.1 (sfInit 2) (SFReach.refl _)).2, h.2 none⟩

end ImmortalStreams
